import Mathlib

/-! Verification development for the `read` function of `pycof/data.py`.

Strings of the Python source are modelled as `List Char`; every Python string
operation used by `read` (`split`, `strip`, `lower`, `replace`, slicing by
`[-1]`, substring membership `in`, `str.format`, `re.findall`, the two
`re.sub` comment patterns, `float(...)`, `json.loads`) is given an explicit
executable model below, and the branches of `read` are embedded as functions
over these models.
-/

/-- Abbreviation: the character list of a string literal. -/
def chars (s : String) : List Char := s.data

/-- Python `str.isspace`-style whitespace for the characters relevant here
(the set stripped by `str.strip()` and tolerated by `float(...)`). -/
def isPyWs (c : Char) : Bool :=
  c == ' ' || c == '\t' || c == '\n' || c == '\r' || c == '\x0b' || c == '\x0c'

/-- Model of Python `str.lower()` on one character (ASCII range, which is the
range exercised by `read`'s extension and cache tokens). -/
def pyLowerChar (c : Char) : Char :=
  if 'A' ≤ c ∧ c ≤ 'Z' then Char.ofNat (c.toNat + 32) else c

/-- Model of Python `str.lower()` (ASCII). -/
def pyLower (l : List Char) : List Char := l.map pyLowerChar

/-- Model of Python `str.lstrip()`. -/
def pyLstrip (l : List Char) : List Char := l.dropWhile isPyWs

/-- Model of Python `str.rstrip()`. -/
def pyRstrip (l : List Char) : List Char := (l.reverse.dropWhile isPyWs).reverse

/-- Model of Python `str.strip()`. -/
def pyStrip (l : List Char) : List Char := pyRstrip (pyLstrip l)

/-- Model of Python `s.split(sep)` for a one-character separator: all
segments are kept, including empty ones. -/
def splitOnChar (sep : Char) : List Char → List (List Char)
  | [] => [[]]
  | c :: cs =>
    let r := splitOnChar sep cs
    if c = sep then [] :: r
    else (c :: r.headD []) :: r.tail

/-- Model of Python's `[-1]` indexing on the (never empty) result of
`str.split`; on an empty list it defaults to the empty string. -/
def pyLast : List (List Char) → List Char
  | [] => []
  | [x] => x
  | _ :: x :: xs => pyLast (x :: xs)

/-- Model of Python `s.split(sep)[-1]` for a one-character separator. -/
def lastSplit (sep : Char) (l : List Char) : List Char :=
  pyLast (splitOnChar sep l)

/-- Model of Python `s.split(pat)[0]` for a non-empty separator string: the
text before the first occurrence of `pat`, or all of `s` when absent. -/
def takeUntilSub (pat : List Char) : List Char → List Char
  | [] => []
  | c :: cs => if pat.isPrefixOf (c :: cs) then [] else c :: takeUntilSub pat cs

/-- Index of the first occurrence of `pat` in `l` (used to model the
non-greedy block-comment `re.sub` patterns). -/
def findSub (pat : List Char) : List Char → Option ℕ
  | [] => if pat = [] then some 0 else none
  | c :: cs => if pat.isPrefixOf (c :: cs) then some 0 else (findSub pat cs).map (· + 1)

/-- Model of Python substring membership `pat in s`. -/
def containsSub (pat : List Char) : List Char → Bool
  | [] => pat.isEmpty
  | c :: cs => pat.isPrefixOf (c :: cs) || containsSub pat cs

/-- Model of Python `str.replace(pat, rep)` (all non-overlapping occurrences,
left to right), driven by fuel; `pat` is non-empty at every use site. -/
def replaceSubFuel (pat rep : List Char) : ℕ → List Char → List Char
  | 0, l => l
  | fuel + 1, l =>
    match l with
    | [] => []
    | c :: cs =>
      if pat.isPrefixOf (c :: cs) then
        rep ++ replaceSubFuel pat rep fuel ((c :: cs).drop pat.length)
      else c :: replaceSubFuel pat rep fuel cs

/-- Model of Python `str.replace(pat, rep)`. -/
def replaceSub (pat rep l : List Char) : List Char :=
  replaceSubFuel pat rep (l.length + 1) l

/-- Model of `' '.join(data)`. -/
def joinSpace : List (List Char) → List Char
  | [] => []
  | [x] => x
  | x :: y :: xs => x ++ ' ' :: joinSpace (y :: xs)

/-- Value of a digit string (most significant first). -/
def digitsToNat (l : List Char) : ℕ :=
  l.foldl (fun a c => a * 10 + (c.toNat - 48)) 0

/-- An exact decimal number `mantissa / 10 ^ exp`: the result type of the
float model. The tokens reaching `float(...)` in `read` denote exact
decimals, so this carries their intended real value. -/
abbrev PyDec := ℤ × ℕ

/-- Strict order on the decimal values: `a.1 / 10^a.2 < b.1 / 10^b.2`. -/
def decLt (a b : PyDec) : Bool :=
  decide (a.1 * (10 : ℤ) ^ b.2 < b.1 * (10 : ℤ) ^ a.2)

/-- Model of Python `float(s)` on the token fragment reaching it in `read`:
optional whitespace padding, an optional sign, then digits with at most one
decimal point (at least one digit). `none` models a raised `ValueError`.
(`inf`/`nan`/exponent/underscore forms are outside the fragment.) -/
def pyFloatCore (l : List Char) : Option PyDec :=
  let neg : Bool := match l with | '-' :: _ => true | _ => false
  let body : List Char := match l with | '+' :: t => t | '-' :: t => t | t => t
  let ip := body.takeWhile Char.isDigit
  let rest2 := body.dropWhile Char.isDigit
  match rest2 with
  | [] =>
    if ip = [] then none
    else some (if neg then -(digitsToNat ip : ℤ) else (digitsToNat ip : ℤ), 0)
  | '.' :: t =>
    let fp := t.takeWhile Char.isDigit
    if t.dropWhile Char.isDigit = [] then
      if ip = [] ∧ fp = [] then none
      else
        let m : ℕ := digitsToNat ip * 10 ^ fp.length + digitsToNat fp
        some (if neg then -(m : ℤ) else (m : ℤ), fp.length)
    else none
  | _ => none

/-- Model of Python `float(s)` (whitespace padding stripped as `float` does). -/
def pyFloat (l : List Char) : Option PyDec :=
  pyFloatCore ((l.dropWhile isPyWs).reverse.dropWhile isPyWs).reverse

/-! ## Path classification (`read`, lines 73-80) -/

/-- Origin of a path: `'S3'`, `'http'` or `'other'` in the source. -/
inductive Orgn where
  | s3
  | http
  | other
deriving DecidableEq

/-- `read` line 75-80: origin from the path's scheme. -/
def classifyOrgn (path : List Char) : Orgn :=
  if (chars "s3://").isPrefixOf path then .s3
  else if (chars "http").isPrefixOf path then .http
  else .other

/-- `read` line 73: `path.split('.')[-1] if extension is None else extension`. -/
def resolvedExt (path : List Char) (extension : Option (List Char)) : List Char :=
  match extension with
  | none => lastSplit '.' path
  | some e => e

/-- What the spec calls "the substring after the final `.` in the path, case
preserved": the longest dot-free suffix. -/
def afterLastDot (path : List Char) : List Char :=
  (path.reverse.takeWhile (fun c => c != '.')).reverse

/-! ## The S3 branch (`read`, lines 84-161) -/

/-- The streamable-extension list of line 102. -/
def streamableExts : List (List Char) :=
  [chars "csv", chars "txt", chars "parq", chars "parquet", chars "fea",
   chars "feather", chars "html", chars "json", chars "js", chars "py",
   chars "sh", chars "xls", chars "xlsx"]

/-- The data-file extensions of line 147. -/
def dataExts : List (List Char) :=
  [chars ".parquet", chars ".parq", chars ".feather", chars ".fea",
   chars ".csv", chars ".json", chars ".txt"]

/-- The `cache` argument as it reaches lines 112-119: either the boolean
`False` or a token (strings; a numeric argument behaves as its decimal
string under `str(...)` and is covered by the token form). -/
inductive CacheTok where
  | pyFalse
  | tok (t : List Char)
deriving DecidableEq

/-- Line 112 and 115: `cache_time = 0. if cache is False else cache`, then
`str(cache_time)`; `str(0.0)` is `"0.0"`. -/
def cacheTokenStr : CacheTok → List Char
  | .pyFalse => chars "0.0"
  | .tok t => t

/-- Line 115: `str(cache_time).lower().replace(' ', '')`. -/
def strCTime (cache : CacheTok) : List Char :=
  (pyLower (cacheTokenStr cache)).filter (fun c => c != ' ')

/-- Is `c` a lowercase ASCII letter (the regex class `[a-z]`)? -/
def isLowerAZ (c : Char) : Bool := decide ('a' ≤ c ∧ c ≤ 'z')

/-- Line 117: `float(''.join(re.findall('[^a-z]', str_c_time)))`; `none`
models the `ValueError` raised by `float`. -/
def parseCacheTime (cache : CacheTok) : Option PyDec :=
  pyFloat ((strCTime cache).filter (fun c => !(isLowerAZ c)))

/-- Line 119: `''.join(re.findall('[a-z]', str_c_time))`. -/
def parseAgeFmt (cache : CacheTok) : List Char :=
  (strCTime cache).filter isLowerAZ

/-- The characters a well-formed freshness token is made of: digits, the
decimal point, ASCII letters and spaces. -/
def tokenChars : List Char :=
  chars "0123456789. abcdefghijklmnopqrstuvwxyzABCDEFGHIJKLMNOPQRSTUVWXYZ"

/-- ASCII alphabetic character. -/
def isAsciiAlpha (c : Char) : Bool :=
  decide ('a' ≤ c ∧ c ≤ 'z') || decide ('A' ≤ c ∧ c ≤ 'Z')

/-- Modelled from the spec's words, for comparison with `parseCacheTime`:
lowercase the token, strip all whitespace, keep the numeric subsequence of
digits and the decimal point, and parse it as a float. -/
def specMagnitude (t : List Char) : Option PyDec :=
  pyFloat (((pyLower t).filter (fun c => !(isPyWs c))).filter
    (fun c => c.isDigit || c == '.'))

/-- Modelled from the spec's words: the alphabetic subsequence of the
lowercased, whitespace-stripped token. -/
def specUnit (t : List Char) : List Char :=
  ((pyLower t).filter (fun c => !(isPyWs c))).filter isAsciiAlpha

/-- Effects of the S3 branch on the object store and the cache directory. -/
inductive Eff where
  | getObject
  | clearCacheDir
  | makeDir
  | download (key : List Char)
deriving DecidableEq

/-- Errors the S3 branch can raise. -/
inductive S3Err where
  | indexError
  | valueError
deriving DecidableEq

/-- Environment of one S3-branch run: the object listing under the prefix,
whether the cache subdirectory for the key exists, the value returned by the
external `file_age` primitive, and the subdirectory's listing. -/
structure S3Env where
  folderPath : List Char
  keys : List (List Char)
  cacheDirExists : Bool
  fileAge : PyDec
  cacheListing : List (List Char)
deriving DecidableEq

/-- Outcome of the S3 branch: the resolved extension for dispatch and the
effect sequence performed. -/
structure S3Out where
  ext : List Char
  effects : List Eff
deriving DecidableEq

/-- Lines 146-151, the cache-refresh download loop: skip an object when its
key equals the prefix or when no known data extension occurs in the key
(substring test `e in obj.key`); otherwise download it and set the resolved
extension to the key's extension. -/
def refreshLoop (fp : List Char) : List (List Char) → List Char → List Eff × List Char
  | [], e => ([], e)
  | k :: ks, e =>
    if k = fp ∨ !(dataExts.any (fun d => containsSub d k)) then refreshLoop fp ks e
    else
      ((Eff.download k) :: (refreshLoop fp ks (lastSplit '.' k)).1,
       (refreshLoop fp ks (lastSplit '.' k)).2)

/-- Lines 157-161, the first-time download loop: skip an object only when
its key equals the prefix. -/
def firstLoop (fp : List Char) : List (List Char) → List Char → List Eff × List Char
  | [], e => ([], e)
  | k :: ks, e =>
    if k = fp then firstLoop fp ks e
    else
      ((Eff.download k) :: (firstLoop fp ks (lastSplit '.' k)).1,
       (firstLoop fp ks (lastSplit '.' k)).2)

/-- The resolved extension after a download loop: the extension of the last
downloaded key, or the incoming extension when nothing was downloaded. -/
def lastExtOr (e : List Char) : List (List Char) → List Char
  | [] => e
  | k :: ks => lastExtOr (lastSplit '.' k) ks

/-- The keep-condition of the refresh loop: the object is downloaded iff its
key differs from the prefix and some known data extension occurs in it. -/
def refreshKeep (fp k : List Char) : Bool :=
  !(decide (k = fp) || !(dataExts.any (fun d => containsSub d k)))

/-- The S3 branch of `read` (lines 102-161): stream the single object when
the lowercased extension is in `streamableExts`; otherwise parse the cache
token, and on a fresh existing subdirectory (HIT) take the extension of the
first listed file, on a stale existing subdirectory clear it and run the
refresh loop, and with no subdirectory create it and run the first-time
loop. -/
def s3Fetch (ext : List Char) (cache : CacheTok) (env : S3Env) : Except S3Err S3Out :=
  if pyLower ext ∈ streamableExts then
    .ok ⟨ext, [.getObject]⟩
  else
    match parseCacheTime cache with
    | none => .error .valueError
    | some cTime =>
      if env.cacheDirExists then
        if decLt env.fileAge cTime then
          match env.cacheListing with
          | [] => .error .indexError
          | f :: _ => .ok ⟨lastSplit '.' f, []⟩
        else
          .ok ⟨(refreshLoop env.folderPath env.keys ext).2,
               .clearCacheDir :: (refreshLoop env.folderPath env.keys ext).1⟩
      else
        .ok ⟨(firstLoop env.folderPath env.keys ext).2,
             .makeDir :: (firstLoop env.folderPath env.keys ext).1⟩

/-! ## Text cleaning branches (`read`, lines 163-266) -/

/-- `l_striped.format(**kwargs)`: with the empty keyword mapping and no
replacement field in the line — the situation of every claim here — Python's
`str.format` is the identity. -/
def pyFormat (l : List Char) : List Char := l

/-- One step of the non-greedy all-occurrences block-comment removal
`re.sub(op…cl, "", line)`: find the first `op`, then the first `cl` after
it, drop the span, continue after it. -/
def blockStripGenFuel (op cl : List Char) : ℕ → List Char → List Char
  | 0, l => l
  | fuel + 1, l =>
    match findSub op l with
    | none => l
    | some i =>
      match findSub cl (l.drop (i + op.length)) with
      | none => l
      | some j =>
        l.take i ++ blockStripGenFuel op cl fuel ((l.drop (i + op.length)).drop (j + cl.length))

/-- `re.sub` of the non-greedy span `op (.|\s|\n)*? cl` by `""` on one line. -/
def blockStripGen (op cl l : List Char) : List Char :=
  blockStripGenFuel op cl (l.length + 1) l

/-- Line 258: `re.sub(r"/\*(.|\s|\n)*?\*/", "", l_striped)`. -/
def blockStrip (l : List Char) : List Char :=
  blockStripGen (chars "/*") (chars "*/") l

/-- Lines 209-224, the `py`/`sh` branch with `parse` and `remove_comments`
true: per line strip, format, truncate at the first `'#'`, drop empties,
join the survivors with one space. -/
def scriptClean (content : List Char) : List Char :=
  joinSpace ((splitOnChar '\n' content).filterMap (fun line =>
    let l2 := takeUntilSub (chars "#") (pyFormat (pyStrip line))
    if l2 = [] then none else some l2))

/-- Lines 171-186, the `sql` branch (comment marker `--`; the `re.sub` call
on line 183 discards its result and is dead code). -/
def sqlClean (content : List Char) : List Char :=
  joinSpace ((splitOnChar '\n' content).filterMap (fun line =>
    let l2 := takeUntilSub (chars "--") (pyFormat (pyStrip line))
    if l2 = [] then none else some l2))

/-- Lines 188-207, the `html` branch: per line `<!-- … -->` spans removed. -/
def htmlClean (content : List Char) : List Char :=
  joinSpace ((splitOnChar '\n' content).filterMap (fun line =>
    let l2 := blockStripGen (chars "<!--") (chars "-->") (pyFormat (pyStrip line))
    if l2 = [] then none else some l2))

/-- Lines 226-241, the `js` branch (comment marker `//`; the `re.sub` call
on line 238 discards its result and is dead code). -/
def jsClean (content : List Char) : List Char :=
  joinSpace ((splitOnChar '\n' content).filterMap (fun line =>
    let l2 := takeUntilSub (chars "//") (pyFormat (pyStrip line))
    if l2 = [] then none else some l2))

/-- Lines 255-263 of the `jsonc` branch, one line with `remove_comments`
true: strip, remove `/* … */` spans, truncate at `//`, truncate at `#`,
drop when empty. -/
def jsoncCleanLine (line : List Char) : Option (List Char) :=
  let l4 := takeUntilSub (chars "#")
    (takeUntilSub (chars "//") (blockStrip (pyStrip line)))
  if l4 = [] then none else some l4

/-- Lines 255-265 of the `jsonc` branch: clean each line, join with one
space, then `str_content.replace(", \x7d", "\x7d")`. -/
def jsoncClean (content : List Char) : List Char :=
  replaceSub (chars ", \x7d") (chars "\x7d")
    (joinSpace ((splitOnChar '\n' content).filterMap jsoncCleanLine))

/-! ## `json.loads` model (for the `jsonc` branch) -/

/-- A JSON value, as produced by `json.loads` on the fragment exercised
here (integer numerals; strings without escape sequences). -/
inductive JVal where
  | jnull
  | jbool (b : Bool)
  | jnum (n : ℤ)
  | jstr (s : List Char)
  | jarr (xs : List JVal)
  | jobj (m : List (List Char × JVal))

/-- JSON whitespace. -/
def isJsonWs (c : Char) : Bool :=
  c == ' ' || c == '\t' || c == '\n' || c == '\r'

/-- Drop leading JSON whitespace. -/
def skipWs (l : List Char) : List Char := l.dropWhile isJsonWs

/-- Parse the body of a string literal after the opening quote; escape
sequences are outside the modelled fragment and fail. -/
def parseStr : List Char → Option (List Char × List Char)
  | [] => none
  | c :: cs =>
    if c = '"' then some ([], cs)
    else if c = '\\' then none
    else (parseStr cs).map (fun r => (c :: r.1, r.2))

/-- Parse a digit run as a natural number. -/
def parseNatNum (l : List Char) : Option (ℕ × List Char) :=
  let ds := l.takeWhile Char.isDigit
  if ds = [] then none else some (digitsToNat ds, l.dropWhile Char.isDigit)

/-- Parse an optionally negated integer numeral. -/
def parseNum (l : List Char) : Option (ℤ × List Char) :=
  match l with
  | '-' :: t => (parseNatNum t).map (fun r => (-(r.1 : ℤ), r.2))
  | t => (parseNatNum t).map (fun r => ((r.1 : ℤ), r.2))

mutual

/-- Recursive-descent JSON value, fuelled. -/
def parseVal : ℕ → List Char → Option (JVal × List Char)
  | 0, _ => none
  | fuel + 1, l =>
    let t := skipWs l
    match t with
    | '"' :: r => (parseStr r).map (fun p => (.jstr p.1, p.2))
    | '\x7b' :: r =>
      match skipWs r with
      | '\x7d' :: r2 => some (.jobj [], r2)
      | r1 => (parseMembers fuel r1).map (fun p => (.jobj p.1, p.2))
    | '[' :: r =>
      match skipWs r with
      | ']' :: r2 => some (.jarr [], r2)
      | r1 => (parseElems fuel r1).map (fun p => (.jarr p.1, p.2))
    | _ =>
      if (chars "null").isPrefixOf t then some (.jnull, t.drop 4)
      else if (chars "true").isPrefixOf t then some (.jbool true, t.drop 4)
      else if (chars "false").isPrefixOf t then some (.jbool false, t.drop 5)
      else (parseNum t).map (fun p => (.jnum p.1, p.2))

/-- Members of a non-empty JSON object, fuelled. -/
def parseMembers : ℕ → List Char → Option (List (List Char × JVal) × List Char)
  | 0, _ => none
  | fuel + 1, l =>
    match skipWs l with
    | '"' :: r =>
      match parseStr r with
      | none => none
      | some (k, r2) =>
        match skipWs r2 with
        | ':' :: r3 =>
          match parseVal fuel r3 with
          | none => none
          | some (v, r4) =>
            match skipWs r4 with
            | ',' :: r5 => (parseMembers fuel r5).map (fun p => ((k, v) :: p.1, p.2))
            | '\x7d' :: r5 => some ([(k, v)], r5)
            | _ => none
        | _ => none
    | _ => none

/-- Elements of a non-empty JSON array, fuelled. -/
def parseElems : ℕ → List Char → Option (List JVal × List Char)
  | 0, _ => none
  | fuel + 1, l =>
    match parseVal fuel l with
    | none => none
    | some (v, r) =>
      match skipWs r with
      | ',' :: r2 => (parseElems fuel r2).map (fun p => (v :: p.1, p.2))
      | ']' :: r2 => some ([v], r2)
      | _ => none

end

/-- Model of `json.loads`: a complete value with only trailing whitespace;
`none` models the raised decode error. -/
def jsonParse (l : List Char) : Option JVal :=
  match parseVal (l.length + 1) l with
  | some (v, rest) => if skipWs rest = [] then some v else none
  | none => none

/-- Lines 249-266: the whole `jsonc` branch. -/
def readJsonc (content : List Char) : Option JVal :=
  jsonParse (jsoncClean content)

/-! ## Table-decoder dispatch (`read`, lines 164-169 and 267-291) -/

/-- The external backend invocation (or error) a table branch ends in. -/
inductive DecodeCall where
  | readCsv
  | readExcel (engine : List Char)
  | pandasReadJson
  | readParquetPandas
  | pyarrowRead
  | fastparquetRead
  | callCustom
  | engineValueError
  | featherRead
deriving DecidableEq

/-- The `engine` argument of the parquet branch: a string or a callable. -/
inductive EngineArg where
  | str (s : List Char)
  | callable
deriving DecidableEq

/-- Lines 167-169: `_engine = 'openpyxl' if engine == 'auto' else engine`,
then `pd.read_excel(..., engine=_engine, ...)` — no validation. -/
def excelDispatch (engine : List Char) : DecodeCall :=
  .readExcel (if engine = chars "auto" then chars "openpyxl" else engine)

/-- Lines 268-286, the parquet branch: `'auto'` becomes `'pyarrow'`; on S3
origin the engine is ignored (`pd.read_parquet`); otherwise a string engine
is matched case-insensitively against the pyarrow and fastparquet names,
anything else raising `ValueError('Engine value not allowed')`; a callable
engine is invoked directly. -/
def parquetDispatch (orgn : Orgn) (engine : EngineArg) : DecodeCall :=
  let e : EngineArg := if engine = .str (chars "auto") then .str (chars "pyarrow") else engine
  if orgn = .s3 then .readParquetPandas
  else
    match e with
    | .str s =>
      if pyLower s ∈ [chars "py", chars "pa", chars "pyarrow"] then .pyarrowRead
      else if pyLower s ∈ [chars "fp", chars "fastparquet"] then .fastparquetRead
      else .engineValueError
    | .callable => .callCustom

/-! ## Extension dispatch and the read-only branch (`read`, lines 163-305) -/

/-- Python file-object line iteration: segments ending in `'\n'`, the final
one kept only when non-empty. -/
def fileLines (content : List Char) : List (List Char) :=
  ((splitOnChar '\n' content).dropLast.map (fun s => s ++ ['\n']))
    ++ (if pyLast (splitOnChar '\n' content) = [] then []
        else [pyLast (splitOnChar '\n' content)])

/-- The value `read` returns (or, for tabular branches, the external call it
makes): `data` starts as the empty Python list on line 82. -/
inductive PyRet where
  | pystr (s : List Char)
  | pylist (xs : List (List Char))
  | jsonVal (v : Option JVal)
  | tableCall (c : DecodeCall)

/-- Lines 163-305: dispatch on `ext.lower()` for a locally-readable source.
First component: the strings printed to standard output (one `print` per
file line in the read-only branch, each right-stripped); second component:
the returned `data`. `parse` and `remove_comments` are taken as their
defaults (true), and the engine argument is a string. -/
def dispatch (ext engArg : List Char) (orgn : Orgn) (content : List Char) :
    List (List Char) × PyRet :=
  if pyLower ext ∈ [chars "csv", chars "txt"] then ([], .tableCall .readCsv)
  else if pyLower ext ∈ [chars "xls", chars "xlsx"] then ([], .tableCall (excelDispatch engArg))
  else if pyLower ext ∈ [chars "sql"] then ([], .pystr (sqlClean content))
  else if pyLower ext ∈ [chars "html"] then ([], .pystr (htmlClean content))
  else if pyLower ext ∈ [chars "py", chars "sh"] then ([], .pystr (scriptClean content))
  else if pyLower ext ∈ [chars "js"] then ([], .pystr (jsClean content))
  else if pyLower ext ∈ [chars "json"] then
    (if pyLower engArg ∈ [chars "json"] then ([], .jsonVal (jsonParse content))
     else ([], .tableCall .pandasReadJson))
  else if pyLower ext ∈ [chars "jsonc"] then ([], .jsonVal (readJsonc content))
  else if pyLower ext ∈ [chars "parq", chars "parquet"] then
    ([], .tableCall (parquetDispatch orgn (.str engArg)))
  else if pyLower ext ∈ [chars "fea", chars "feather"] then ([], .tableCall .featherRead)
  else if pyLower ext ∈ [chars "readonly", chars "read-only", chars "ro"] then
    ((fileLines content).map pyRstrip, .pylist [])
  else ([], .pystr content)

/-! ## Supporting lemmas -/

theorem splitOnChar_ne_nil (sep : Char) (l : List Char) : splitOnChar sep l ≠ [] := by
  cases l with
  | nil => simp [splitOnChar]
  | cons c cs =>
    simp only [splitOnChar]
    split <;> simp

theorem splitOnChar_of_nmem (sep : Char) (l : List Char) (h : sep ∉ l) :
    splitOnChar sep l = [l] := by
  induction l with
  | nil => rfl
  | cons c cs ih =>
    have hc : c ≠ sep := fun hcs => h (hcs ▸ List.mem_cons_self c cs)
    have hcs : sep ∉ cs := fun hm => h (List.mem_cons_of_mem c hm)
    simp only [splitOnChar, if_neg (fun hcs' => hc hcs'), ih hcs]
    rfl

theorem splitOnChar_len_ge_two (sep : Char) (l : List Char) (h : sep ∈ l) :
    2 ≤ (splitOnChar sep l).length := by
  induction l with
  | nil => cases h
  | cons c cs ih =>
    by_cases hc : c = sep
    · simp only [splitOnChar, if_pos hc, List.length_cons]
      have := splitOnChar_ne_nil sep cs
      have : 1 ≤ (splitOnChar sep cs).length := by
        cases hcs : splitOnChar sep cs with
        | nil => exact absurd hcs this
        | cons a as => simp
      omega
    · have hcs : sep ∈ cs := by
        rcases List.mem_cons.mp h with h1 | h1
        · exact absurd h1.symm hc
        · exact h1
      have h2 := ih hcs
      simp only [splitOnChar, if_neg hc]
      cases hsp : splitOnChar sep cs with
      | nil => exact absurd hsp (splitOnChar_ne_nil sep cs)
      | cons g gs =>
        simp only [hsp, List.length_cons] at h2 ⊢
        simpa using h2

theorem pyLast_cons_of_ne_nil (x : List Char) (t : List (List Char)) (h : t ≠ []) :
    pyLast (x :: t) = pyLast t := by
  cases t with
  | nil => exact absurd rfl h
  | cons y ys => rfl

theorem takeWhile_append_stop (p : Char → Bool) (c : Char) (hc : p c = false) :
    ∀ xs ys : List Char, (xs ++ c :: ys).takeWhile p = xs.takeWhile p := by
  intro xs ys
  induction xs with
  | nil => simp [List.takeWhile, hc]
  | cons x xs ih =>
    simp only [List.cons_append, List.takeWhile]
    cases hx : p x <;> simp [ih]

theorem takeWhile_append_all (p : Char → Bool) :
    ∀ xs ys : List Char, (∀ x ∈ xs, p x = true) →
      (xs ++ ys).takeWhile p = xs ++ ys.takeWhile p := by
  intro xs ys h
  induction xs with
  | nil => simp
  | cons x xs ih =>
    have hx : p x = true := h x (List.mem_cons_self x xs)
    simp only [List.cons_append, List.takeWhile, hx]
    simp [ih (fun a ha => h a (List.mem_cons_of_mem x ha))]

theorem takeWhile_append_of_mem (p : Char → Bool) (c : Char) (hc : p c = false) :
    ∀ xs ys : List Char, c ∈ xs → (xs ++ ys).takeWhile p = xs.takeWhile p := by
  intro xs
  induction xs with
  | nil => intro ys h; cases h
  | cons x xs ih =>
    intro ys h
    simp only [List.cons_append, List.takeWhile]
    cases hx : p x with
    | false => rfl
    | true =>
      have hcx : c ∈ xs := by
        rcases List.mem_cons.mp h with h1 | h1
        · rw [h1] at hc; rw [hc] at hx; cases hx
        · exact h1
      show x :: List.takeWhile p (xs ++ ys) = x :: List.takeWhile p xs
      rw [ih ys hcx]

theorem lastSplit_eq_afterLast (sep : Char) (l : List Char) :
    lastSplit sep l = (l.reverse.takeWhile (fun c => c != sep)).reverse := by
  induction l with
  | nil => rfl
  | cons c cs ih =>
    by_cases hc : c = sep
    · subst hc
      have h1 : lastSplit c (c :: cs) = lastSplit c cs := by
        simp only [lastSplit, splitOnChar, if_pos rfl]
        exact pyLast_cons_of_ne_nil _ _ (splitOnChar_ne_nil c cs)
      have h2 : ((c :: cs).reverse.takeWhile (fun x => x != c)).reverse
          = (cs.reverse.takeWhile (fun x => x != c)).reverse := by
        rw [List.reverse_cons,
          takeWhile_append_stop (fun x => x != c) c (by simp) cs.reverse []]
      rw [h1, h2, ih]
    · by_cases hm : sep ∈ cs
      · have hlen := splitOnChar_len_ge_two sep cs hm
        have h1 : lastSplit sep (c :: cs) = lastSplit sep cs := by
          simp only [lastSplit, splitOnChar, if_neg hc]
          cases hsp : splitOnChar sep cs with
          | nil => exact absurd hsp (splitOnChar_ne_nil sep cs)
          | cons g gs =>
            rw [hsp] at hlen
            have hgs : gs ≠ [] := by
              intro hgs
              rw [hgs] at hlen
              simp at hlen
            simp only [List.headD_cons, List.tail_cons]
            rw [pyLast_cons_of_ne_nil _ _ hgs, pyLast_cons_of_ne_nil _ _ hgs]
        have h2 : ((c :: cs).reverse.takeWhile (fun x => x != sep)).reverse
            = (cs.reverse.takeWhile (fun x => x != sep)).reverse := by
          rw [List.reverse_cons,
            takeWhile_append_of_mem (fun x => x != sep) sep (by simp) cs.reverse [c]
              (List.mem_reverse.mpr hm)]
        rw [h1, h2, ih]
      · have h1 : splitOnChar sep cs = [cs] := splitOnChar_of_nmem sep cs hm
        have h2 : lastSplit sep (c :: cs) = c :: cs := by
          simp [lastSplit, splitOnChar, if_neg hc, h1, pyLast]
        have hall : ∀ x ∈ cs.reverse, (fun x => x != sep) x = true := by
          intro x hx
          have : x ∈ cs := List.mem_reverse.mp hx
          simp only [bne_iff_ne, ne_eq]
          exact fun hxs => hm (hxs ▸ this)
        have h3 : ((c :: cs).reverse.takeWhile (fun x => x != sep)).reverse = c :: cs := by
          rw [List.reverse_cons, takeWhile_append_all _ _ _ hall]
          have hcb : (c != sep) = true := by simp [hc]
          have : [c].takeWhile (fun x => x != sep) = [c] := by
            simp only [List.takeWhile, hcb]
          rw [this]
          simp
        rw [h2, h3]

theorem mem_takeWhile_pred (p : Char → Bool) :
    ∀ (l : List Char) (c : Char), c ∈ l.takeWhile p → p c = true := by
  intro l
  induction l with
  | nil => intro c h; cases h
  | cons x xs ih =>
    intro c h
    simp only [List.takeWhile] at h
    cases hx : p x with
    | false => rw [hx] at h; cases h
    | true =>
      rw [hx] at h
      rcases List.mem_cons.mp h with h1 | h1
      · rwa [h1]
      · exact ih c h1

/-! ## Claim theorems -/

/-- Claim C6, confirmed: For every path, `read` line 73 resolves the
extension as the substring after the final `.` in the path — the longest
dot-free suffix, case preserved, the whole path when no dot occurs — and an
explicit extension argument is used verbatim, with no validation. -/
theorem claim6_extension_resolution :
    (∀ (path e : List Char), resolvedExt path (some e) = e)
    ∧ (∀ path : List Char, resolvedExt path none = afterLastDot path)
    ∧ (∀ path : List Char,
        (resolvedExt path none).all (fun c => c != '.') = true) := by
  refine ⟨fun path e => rfl, fun path => ?_, fun path => ?_⟩
  · simp only [resolvedExt, afterLastDot]
    exact lastSplit_eq_afterLast '.' path
  · have h1 : resolvedExt path none = afterLastDot path := by
      simp only [resolvedExt, afterLastDot]
      exact lastSplit_eq_afterLast '.' path
    rw [h1]
    apply List.all_eq_true.mpr
    intro c hc
    have hc2 : c ∈ path.reverse.takeWhile (fun x => x != '.') :=
      List.mem_reverse.mp hc
    exact mem_takeWhile_pred (fun x => x != '.') path.reverse c hc2

/-- Claim C2, confirmed: For an S3 path whose resolved extension, lowercased,
is in the streamable set, `read` fetches the single object into memory
(`get_object`) and performs no cache operation at all: the outcome is
independent of the cache state and the cache token, which is not even
parsed. -/
theorem claim2_direct_stream (ext : List Char) (cache : CacheTok) (env : S3Env)
    (h : pyLower ext ∈ streamableExts) :
    s3Fetch ext cache env = .ok ⟨ext, [.getObject]⟩ := by
  simp [s3Fetch, h]

/-- Witness for C2: a `csv` S3 object with an existing fresh cache
subdirectory and an unparseable cache token still streams directly. -/
theorem claim2_witness :
    s3Fetch (chars "csv") (.tok (chars "nonsense"))
        ⟨chars "b/k.csv", [], true, (0, 0), [chars "x.csv"]⟩
      = .ok ⟨chars "csv", [Eff.getObject]⟩ :=
  claim2_direct_stream (chars "csv") (.tok (chars "nonsense")) _ (by decide)

theorem refreshLoop_eq (fp : List Char) :
    ∀ (keys : List (List Char)) (e : List Char),
      refreshLoop fp keys e
        = ((keys.filter (refreshKeep fp)).map Eff.download,
           lastExtOr e (keys.filter (refreshKeep fp))) := by
  intro keys
  induction keys with
  | nil => intro e; rfl
  | cons k ks ih =>
    intro e
    by_cases hk : k = fp ∨ !(dataExts.any (fun d => containsSub d k))
    · have hkeep : refreshKeep fp k = false := by
        rcases hk with h | h
        · simp [refreshKeep, h]
        · simp [refreshKeep, h]
      rw [List.filter_cons_of_neg (by simp [hkeep])]
      simp only [refreshLoop, if_pos hk]
      exact ih e
    · have hkeep : refreshKeep fp k = true := by
        push_neg at hk
        have h1 : decide (k = fp) = false := decide_eq_false hk.1
        have h2 : (dataExts.any fun d => containsSub d k) = true := by
          cases hb : (dataExts.any fun d => containsSub d k)
          · exact absurd (by simp [hb]) hk.2
          · rfl
        simp [refreshKeep, h1, h2]
      rw [List.filter_cons_of_pos hkeep]
      simp only [refreshLoop, if_neg hk, List.map_cons]
      rw [ih (lastSplit '.' k)]
      rfl

theorem firstLoop_eq (fp : List Char) :
    ∀ (keys : List (List Char)) (e : List Char),
      firstLoop fp keys e
        = ((keys.filter (fun k => k != fp)).map Eff.download,
           lastExtOr e (keys.filter (fun k => k != fp))) := by
  intro keys
  induction keys with
  | nil => intro e; rfl
  | cons k ks ih =>
    intro e
    by_cases hk : k = fp
    · have hkeep : (k != fp) = false := by simp [hk]
      rw [List.filter_cons_of_neg (by simp [hkeep])]
      simp only [firstLoop, if_pos hk]
      exact ih e
    · have hkeep : (k != fp) = true := by simp [hk]
      rw [@List.filter_cons_of_pos _ (fun x => x != fp) k ks hkeep]
      simp only [firstLoop, if_neg hk, List.map_cons]
      rw [ih (lastSplit '.' k)]
      rfl

/-- Claim C1, corrected: The two cache-MISS download loops do not share the
skip rule. The refresh loop keeps exactly the objects whose key differs
from the prefix and contains some known data extension as a substring (not
a suffix test); the first-time loop keeps every object except the
prefix-equal key, with no extension test at all. In both, the resolved
extension becomes the last downloaded key's extension. -/
theorem claim1_amended_loops :
    (∀ (fp : List Char) (keys : List (List Char)) (e : List Char),
       refreshLoop fp keys e
         = ((keys.filter (refreshKeep fp)).map Eff.download,
            lastExtOr e (keys.filter (refreshKeep fp))))
    ∧ (∀ (fp : List Char) (keys : List (List Char)) (e : List Char),
       firstLoop fp keys e
         = ((keys.filter (fun k => k != fp)).map Eff.download,
            lastExtOr e (keys.filter (fun k => k != fp)))) :=
  ⟨refreshLoop_eq, firstLoop_eq⟩

/-- Counterexample for C1 as stated: on a first-time MISS (no cache
subdirectory), the object `"data/readme.md"`, whose key suffix matches no
known data extension, is downloaded anyway — while the refresh loop would
have skipped it. -/
theorem claim1_counterexample :
    s3Fetch (chars "zip") (.tok (chars "30mins"))
        ⟨chars "data/", [chars "data/", chars "data/readme.md"], false, (0, 0), []⟩
      = .ok ⟨chars "md", [Eff.makeDir, Eff.download (chars "data/readme.md")]⟩
    ∧ (refreshLoop (chars "data/") [chars "data/", chars "data/readme.md"]
        (chars "zip")).1 = [] :=
  ⟨rfl, by decide⟩

/-- Claim C3, confirmed: On the cache-materialize branch, a cache argument of
boolean `False` (made into the token `"0.0"`) or any token parsing to
magnitude 0 forces a MISS whenever the external file age is non-negative:
an existing subdirectory is cleared and repopulated by the refresh loop, a
missing one is created and populated by the first-time loop. -/
theorem claim3_forced_miss (ext : List Char) (cache : CacheTok) (env : S3Env)
    (hns : pyLower ext ∉ streamableExts)
    (h0 : cache = CacheTok.pyFalse ∨ ∃ e, parseCacheTime cache = some (0, e))
    (hage : 0 ≤ env.fileAge.1) :
    s3Fetch ext cache env =
      if env.cacheDirExists then
        Except.ok ⟨(refreshLoop env.folderPath env.keys ext).2,
             Eff.clearCacheDir :: (refreshLoop env.folderPath env.keys ext).1⟩
      else
        Except.ok ⟨(firstLoop env.folderPath env.keys ext).2,
             Eff.makeDir :: (firstLoop env.folderPath env.keys ext).1⟩ := by
  have hp : ∃ e, parseCacheTime cache = some (0, e) := by
    rcases h0 with h | h
    · exact ⟨1, by rw [h]; decide⟩
    · exact h
  obtain ⟨e, hp⟩ := hp
  have hlt : decLt env.fileAge (0, e) = false := by
    simp only [decLt, decide_eq_false_iff_not, not_lt]
    have h1 : (0 : ℤ) ≤ env.fileAge.1 * 10 ^ e :=
      mul_nonneg hage (pow_nonneg (by norm_num) e)
    simpa using h1
  simp only [s3Fetch, if_neg hns, hp, hlt]
  by_cases hd : env.cacheDirExists <;> simp [hd]

/-- Witness for C3: with `cache=False`, an existing cache subdirectory of
age 5 is cleared and repopulated. -/
theorem claim3_witness :
    s3Fetch (chars "bin") CacheTok.pyFalse
        ⟨chars "d/", [chars "d/", chars "d/a.txt"], true, (5, 0), []⟩
      = .ok ⟨chars "txt", [Eff.clearCacheDir, Eff.download (chars "d/a.txt")]⟩ := by
  have h := claim3_forced_miss (chars "bin") CacheTok.pyFalse
    ⟨chars "d/", [chars "d/", chars "d/a.txt"], true, (5, 0), []⟩
    (by decide) (Or.inl rfl) (by norm_num)
  rw [h]
  rfl

/-- Claim C10, confirmed: On a cache HIT (subdirectory exists and age is
within the freshness bound), `read` takes the resolved extension from the
first entry of the subdirectory listing; an empty listing raises the
out-of-range indexing error instead of falling back to a re-download. -/
theorem claim10_hit_listing (ext : List Char) (cache : CacheTok) (env : S3Env)
    (cTime : PyDec)
    (hns : pyLower ext ∉ streamableExts)
    (hp : parseCacheTime cache = some cTime)
    (hex : env.cacheDirExists = true)
    (hfresh : decLt env.fileAge cTime = true) :
    (env.cacheListing = [] → s3Fetch ext cache env = .error .indexError)
    ∧ (∀ f fs, env.cacheListing = f :: fs →
        s3Fetch ext cache env = .ok ⟨lastSplit '.' f, []⟩) := by
  constructor
  · intro hl
    simp [s3Fetch, if_neg hns, hp, hex, hfresh, hl]
  · intro f fs hl
    simp [s3Fetch, if_neg hns, hp, hex, hfresh, hl]

theorem filter_filter_fuse (p q : Char → Bool) :
    ∀ l : List Char, (l.filter p).filter q = l.filter (fun c => p c && q c) := by
  intro l
  induction l with
  | nil => rfl
  | cons x xs ih =>
    cases hp : p x with
    | false =>
      rw [List.filter_cons_of_neg (by simp [hp]),
        List.filter_cons_of_neg (by simp [hp]), ih]
    | true =>
      cases hq : q x with
      | false =>
        rw [List.filter_cons_of_pos hp, List.filter_cons_of_neg (by simp [hq]),
          List.filter_cons_of_neg (by simp [hp, hq]), ih]
      | true =>
        rw [List.filter_cons_of_pos hp, List.filter_cons_of_pos hq,
          List.filter_cons_of_pos (by simp [hp, hq]), ih]

theorem filter_congr_mem (p q : Char → Bool) :
    ∀ l : List Char, (∀ c ∈ l, p c = q c) → l.filter p = l.filter q := by
  intro l
  induction l with
  | nil => intro h; rfl
  | cons x xs ih =>
    intro h
    have hx := h x (List.mem_cons_self x xs)
    have hxs := ih (fun c hc => h c (List.mem_cons_of_mem x hc))
    cases hp : p x with
    | false =>
      have hq : q x = false := hx ▸ hp
      rw [List.filter_cons_of_neg (by simp [hp]),
        List.filter_cons_of_neg (by simp [hq]), hxs]
    | true =>
      have hq : q x = true := hx ▸ hp
      rw [List.filter_cons_of_pos hp, List.filter_cons_of_pos hq, hxs]

theorem tokenChars_facts : ∀ d ∈ tokenChars,
    (((pyLowerChar d != ' ') && !(isLowerAZ (pyLowerChar d)))
       = (!(isPyWs (pyLowerChar d)) && ((pyLowerChar d).isDigit || pyLowerChar d == '.')))
    ∧ (((pyLowerChar d != ' ') && isLowerAZ (pyLowerChar d))
       = (!(isPyWs (pyLowerChar d)) && isAsciiAlpha (pyLowerChar d))) := by decide

theorem dropWhile_append_eq (p : Char → Bool) :
    ∀ xs ys : List Char, (xs ++ ys).dropWhile p
      = if xs.dropWhile p = [] then ys.dropWhile p else xs.dropWhile p ++ ys := by
  intro xs ys
  induction xs with
  | nil => simp
  | cons x xs ih =>
    cases hx : p x with
    | true =>
      rw [List.cons_append, List.dropWhile_cons_of_pos hx, List.dropWhile_cons_of_pos hx, ih]
    | false =>
      rw [List.cons_append, List.dropWhile_cons_of_neg (by simp [hx]),
        List.dropWhile_cons_of_neg (by simp [hx])]
      simp

theorem lstrip_append (a b : List Char) (ha : pyLstrip a = a) (hne : a ≠ []) :
    pyLstrip (a ++ b) = a ++ b := by
  cases a with
  | nil => exact absurd rfl hne
  | cons x xs =>
    have hx : isPyWs x = false := by
      cases hb : isPyWs x
      · rfl
      · exfalso
        have h1 := ha
        rw [pyLstrip, List.dropWhile_cons_of_pos hb] at h1
        have h2 := (List.dropWhile_sublist (l := xs) isPyWs).length_le
        rw [h1] at h2
        simp at h2
    rw [List.cons_append, pyLstrip, List.dropWhile_cons_of_neg (by simp [hx])]

theorem rstrip_append (a b : List Char)
    (ha : List.dropWhile isPyWs a.reverse = a.reverse) :
    pyRstrip (a ++ b) = a ++ pyRstrip b := by
  rw [pyRstrip, List.reverse_append, dropWhile_append_eq]
  by_cases hb : b.reverse.dropWhile isPyWs = []
  · rw [if_pos hb, ha]
    simp [pyRstrip, hb]
  · rw [if_neg hb, List.reverse_append]
    simp [pyRstrip]

theorem mem_of_pyRstrip (l : List Char) (c : Char) (h : c ∈ pyRstrip l) : c ∈ l := by
  rw [pyRstrip] at h
  exact List.mem_reverse.mp (List.dropWhile_subset isPyWs (List.mem_reverse.mp h))

theorem findSub_slashStar_none : ∀ l : List Char, '*' ∉ l →
    findSub (chars "/*") l = none := by
  intro l
  induction l with
  | nil => intro h; decide
  | cons x xs ih =>
    intro h
    have hxs : '*' ∉ xs := fun hm => h (List.mem_cons_of_mem _ hm)
    have hpre : (chars "/*").isPrefixOf (x :: xs) = false := by
      cases xs with
      | nil => simp [chars, List.isPrefixOf]
      | cons y ys =>
        have hy : ('*' == y) = false := by
          apply beq_eq_false_iff_ne.mpr
          intro hcon
          exact h (by rw [hcon]; exact List.mem_cons_of_mem x (List.mem_cons_self y ys))
        simp [chars, List.isPrefixOf, hy]
    simp [findSub, hpre, ih hxs]

theorem blockStrip_no_star (l : List Char) (h : '*' ∉ l) : blockStrip l = l := by
  simp [blockStrip, blockStripGen, blockStripGenFuel, findSub_slashStar_none l h]

theorem takeUntilSub_marker (b : List Char) : ∀ a : List Char, '/' ∉ a →
    takeUntilSub (chars "//") (a ++ '/' :: '/' :: b) = a := by
  intro a
  induction a with
  | nil =>
    intro h
    have hpre : (chars "//").isPrefixOf ('/' :: '/' :: b) = true := by
      simp [chars, List.isPrefixOf]
    simp [takeUntilSub, hpre]
  | cons x xs ih =>
    intro h
    have hx : ('/' == x) = false := by
      apply beq_eq_false_iff_ne.mpr
      intro hcon
      exact h (by rw [hcon]; exact List.mem_cons_self x xs)
    have hpre : (chars "//").isPrefixOf (x :: (xs ++ '/' :: '/' :: b)) = false := by
      simp [chars, List.isPrefixOf, hx]
    have hxs : '/' ∉ xs := fun hm => h (List.mem_cons_of_mem _ hm)
    rw [List.cons_append]
    simp only [takeUntilSub, hpre]
    simp [ih hxs]

/-- Counterexample for C7 as stated: the input `{"k": "a#b"}` is its own
comment-free, trailing-comma-free equivalent and is valid JSON, but the
`jsonc` cleaning truncates the line at the `'#'` inside the string literal,
so cleaning followed by parsing fails where direct parsing succeeds. -/
theorem claim7_counterexample :
    readJsonc (chars "\x7b\"k\": \"a#b\"\x7d") = none
    ∧ jsonParse (chars "\x7b\"k\": \"a#b\"\x7d")
      = some (JVal.jobj [(chars "k", JVal.jstr (chars "a#b"))]) :=
  ⟨rfl, rfl⟩

/-- Claim C7, corrected: The round-trip fails whenever a comment marker
occurs inside a string literal; it does hold on comment-marker-free bodies:
for every line-comment text `c` with no newline and no `'*'`, reading the
single-line `jsonc` input `{"a": 1, } //` followed by `c` (trailing comma
before the brace, then a line comment) equals parsing the equivalent
comment-free, comma-free input `{"a": 1 }` directly. -/
theorem claim7_amended (c : List Char) (h1 : '\n' ∉ c) (h2 : '*' ∉ c) :
    readJsonc (chars "\x7b\"a\": 1, \x7d //" ++ c)
      = jsonParse (chars "\x7b\"a\": 1 \x7d")
    ∧ jsonParse (chars "\x7b\"a\": 1 \x7d")
      = some (JVal.jobj [(chars "a", JVal.jnum 1)]) := by
  refine ⟨?_, rfl⟩
  have hnl : '\n' ∉ chars "\x7b\"a\": 1, \x7d //" ++ c := by
    intro hm
    rcases List.mem_append.mp hm with hm | hm
    · exact absurd hm (by decide)
    · exact h1 hm
  have hstrip : pyStrip (chars "\x7b\"a\": 1, \x7d //" ++ c)
      = chars "\x7b\"a\": 1, \x7d //" ++ pyRstrip c := by
    rw [pyStrip, lstrip_append _ _ (by decide) (by decide),
      rstrip_append _ _ (by decide)]
  have hstar : '*' ∉ chars "\x7b\"a\": 1, \x7d //" ++ pyRstrip c := by
    intro hm
    rcases List.mem_append.mp hm with hm | hm
    · exact absurd hm (by decide)
    · exact h2 (mem_of_pyRstrip _ _ hm)
  have hblock : blockStrip (chars "\x7b\"a\": 1, \x7d //" ++ pyRstrip c)
      = chars "\x7b\"a\": 1, \x7d //" ++ pyRstrip c := blockStrip_no_star _ hstar
  have htake : takeUntilSub (chars "//") (chars "\x7b\"a\": 1, \x7d //" ++ pyRstrip c)
      = chars "\x7b\"a\": 1, \x7d " := by
    have hsh : chars "\x7b\"a\": 1, \x7d //" ++ pyRstrip c
        = chars "\x7b\"a\": 1, \x7d " ++ '/' :: '/' :: pyRstrip c := by
      have hdec : chars "\x7b\"a\": 1, \x7d //"
          = chars "\x7b\"a\": 1, \x7d " ++ ['/', '/'] := by decide
      rw [hdec, List.append_assoc]
      rfl
    rw [hsh, takeUntilSub_marker _ _ (by decide)]
  have hline : jsoncCleanLine (chars "\x7b\"a\": 1, \x7d //" ++ c)
      = some (chars "\x7b\"a\": 1, \x7d ") := by
    simp only [jsoncCleanLine, hstrip, hblock, htake]
    decide
  have hclean : jsoncClean (chars "\x7b\"a\": 1, \x7d //" ++ c)
      = chars "\x7b\"a\": 1\x7d " := by
    rw [jsoncClean, splitOnChar_of_nmem _ _ hnl]
    simp only [List.filterMap_cons, List.filterMap_nil, hline]
    decide
  show jsonParse (jsoncClean _) = _
  rw [hclean]
  rfl

/-- Witness for C7 (amended) at the comment text `" note"`. -/
theorem claim7_witness :
    readJsonc (chars "\x7b\"a\": 1, \x7d // note")
      = some (JVal.jobj [(chars "a", JVal.jnum 1)]) := by
  have happ : chars "\x7b\"a\": 1, \x7d //" ++ chars " note"
      = chars "\x7b\"a\": 1, \x7d // note" := by decide
  have h := claim7_amended (chars " note") (by decide) (by decide)
  rw [← happ, h.1]
  exact h.2

/-- Counterexample for C5 as stated: on the token `"-30mins"` the code's
magnitude (the non-letter subsequence `"-30"` parsed as a float) is `-30`,
while the claim's digits-and-decimal-point subsequence gives `30`. -/
theorem claim5_counterexample :
    parseCacheTime (.tok (chars "-30mins")) = some (-30, 0)
    ∧ specMagnitude (chars "-30mins") = some (30, 0) := by decide

/-- Claim C5, corrected: Parsing lowercases the token and removes space
characters; magnitude is the subsequence of non-lowercase-letter characters
parsed as a Python float and unit is the `[a-z]` subsequence. For tokens
made only of digits, `'.'`, ASCII letters and spaces this coincides with
the claim's digits-and-decimal-point/alphabetic partition; in particular
`"30mins"` gives magnitude 30 and unit `"mins"`. -/
theorem claim5_amended (t : List Char) (h : ∀ c ∈ t, c ∈ tokenChars) :
    parseCacheTime (.tok t) = specMagnitude t
    ∧ parseAgeFmt (.tok t) = specUnit t := by
  have key : ∀ c ∈ pyLower t,
      (((c != ' ') && !(isLowerAZ c))
         = (!(isPyWs c) && (c.isDigit || c == '.')))
      ∧ (((c != ' ') && isLowerAZ c) = (!(isPyWs c) && isAsciiAlpha c)) := by
    intro c hc
    obtain ⟨d, hd, rfl⟩ := List.mem_map.mp hc
    exact tokenChars_facts d (h d hd)
  constructor
  · show pyFloat _ = pyFloat _
    have : ((pyLower t).filter (fun c => c != ' ')).filter (fun c => !(isLowerAZ c))
        = ((pyLower t).filter (fun c => !(isPyWs c))).filter
            (fun c => c.isDigit || c == '.') := by
      rw [filter_filter_fuse, filter_filter_fuse]
      exact filter_congr_mem _ _ _ (fun c hc => (key c hc).1)
    simpa [parseCacheTime, strCTime, cacheTokenStr] using congrArg pyFloat this
  · show ((pyLower t).filter (fun c => c != ' ')).filter isLowerAZ
        = ((pyLower t).filter (fun c => !(isPyWs c))).filter isAsciiAlpha
    rw [filter_filter_fuse, filter_filter_fuse]
    exact filter_congr_mem _ _ _ (fun c hc => (key c hc).2)

/-- Witness for C5 (amended) at the token `"30mins"`. -/
theorem claim5_witness :
    parseCacheTime (.tok (chars "30mins")) = some (30, 0)
    ∧ parseAgeFmt (.tok (chars "30mins")) = chars "mins" := by
  have h := claim5_amended (chars "30mins") (by decide)
  exact ⟨by rw [h.1]; decide, by rw [h.2]; decide⟩

/-- Counterexample for C4 as stated: cleaning the script text
`"x = 1  # set x\n\ny = 2\n"` does not give `"x = 1 y = 2"`, because the
line is stripped before the truncation at `'#'`, so the spaces before the
comment marker survive. -/
theorem claim4_counterexample :
    (scriptClean (chars "x = 1  # set x\n\ny = 2\n") == chars "x = 1 y = 2") = false := by
  decide

/-- Claim C4, corrected: Cleaning the script text `"x = 1  # set x\n\ny = 2\n"`
with parsing and comment-stripping on yields `"x = 1   y = 2"`: stripping
happens before the truncation at the first `'#'`, so whitespace preceding
the comment marker is kept; empty lines are dropped and survivors joined by
a single space. -/
theorem claim4_amended :
    scriptClean (chars "x = 1  # set x\n\ny = 2\n") = chars "x = 1   y = 2" := by decide

/-- Counterexample for C8 as stated: a spreadsheet decode with the unknown
string engine `"bogus"` passes the identifier verbatim to the external
`pd.read_excel` backend instead of raising; an S3-origin parquet decode
ignores the engine entirely and calls `pd.read_parquet`. -/
theorem claim8_counterexample :
    excelDispatch (chars "bogus") = .readExcel (chars "bogus")
    ∧ parquetDispatch .s3 (.str (chars "bogus")) = .readParquetPandas := by decide

/-- Claim C8, corrected: Only the non-S3 parquet branch validates a string
engine: anything that is neither `'auto'` nor a pyarrow/fastparquet name
(case-insensitively) raises `ValueError('Engine value not allowed')`. The
spreadsheet branch forwards the unknown engine to the external backend, and
the S3 parquet branch ignores it. -/
theorem claim8_amended (s : List Char)
    (h1 : s ≠ chars "auto")
    (h2 : pyLower s ∉ [chars "py", chars "pa", chars "pyarrow"])
    (h3 : pyLower s ∉ [chars "fp", chars "fastparquet"]) :
    parquetDispatch .other (.str s) = .engineValueError
    ∧ parquetDispatch .http (.str s) = .engineValueError
    ∧ excelDispatch s = .readExcel s
    ∧ parquetDispatch .s3 (.str s) = .readParquetPandas := by
  have he : ¬ (EngineArg.str s = EngineArg.str (chars "auto")) := by
    intro hcon
    exact h1 (EngineArg.str.inj hcon)
  refine ⟨?_, ?_, ?_, ?_⟩
  · simp [parquetDispatch, he, h2, h3]
  · simp [parquetDispatch, he, h2, h3]
  · simp [excelDispatch, h1]
  · simp [parquetDispatch, he]

/-- Witness for C8 (amended) at the engine string `"bogus"`. -/
theorem claim8_witness :
    parquetDispatch .other (.str (chars "bogus")) = DecodeCall.engineValueError
    ∧ parquetDispatch .http (.str (chars "bogus")) = DecodeCall.engineValueError
    ∧ excelDispatch (chars "bogus") = DecodeCall.readExcel (chars "bogus")
    ∧ parquetDispatch .s3 (.str (chars "bogus")) = DecodeCall.readParquetPandas :=
  claim8_amended (chars "bogus") (by decide) (by decide) (by decide)

/-- Claim C9, confirmed: In read-only mode (`readonly`, `read-only`, `ro`),
`read` prints each file line right-stripped, one `print` per line, and the
returned `data` is still the initial empty list — the content is not
returned. -/
theorem claim9_readonly (ext engArg : List Char) (orgn : Orgn) (content : List Char)
    (h : pyLower ext ∈ [chars "readonly", chars "read-only", chars "ro"]) :
    dispatch ext engArg orgn content
      = ((fileLines content).map pyRstrip, .pylist []) := by
  have he : pyLower ext = chars "readonly" ∨ pyLower ext = chars "read-only"
      ∨ pyLower ext = chars "ro" := by simpa using h
  simp only [dispatch]
  rcases he with he | he | he <;>
    rw [he] <;>
    repeat rw [if_neg (by decide)]
  all_goals rw [if_pos (by decide)]

/-- Witness for C9: a mixed-case `READ-ONLY` extension on a two-line file
prints the stripped lines and returns the empty list. -/
theorem claim9_witness :
    dispatch (chars "READ-ONLY") (chars "auto") .other (chars "l1 \nl2")
      = ([chars "l1", chars "l2"], .pylist []) := by
  have h := claim9_readonly (chars "READ-ONLY") (chars "auto") .other (chars "l1 \nl2")
    (by decide)
  rw [h]
  rfl

/-- Witness for C10: a fresh but empty cache subdirectory makes the HIT
branch fail with the indexing error. -/
theorem claim10_witness :
    s3Fetch (chars "bin") (.tok (chars "30mins")) ⟨chars "d/", [], true, (0, 0), []⟩
      = .error S3Err.indexError :=
  (claim10_hit_listing (chars "bin") (.tok (chars "30mins"))
    ⟨chars "d/", [], true, (0, 0), []⟩ (30, 0)
    (by decide) (by decide) rfl (by decide)).1 rfl
